import Mathlib

set_option maxHeartbeats 1000000

/-!
Verification development for the symbolic-computation kernel excerpt:
the expression model and rule rewriting (`rules.ts`), the canonical
comparison test table (`comparisons.test.ts`), the boxed-expression
utilities and argument validators, and the algebraic expansion engine
(`symbolic/expand.ts`).
-/

/-- Raw expression tree: a symbol, an integer numeric literal, or a function
application (operator name plus ordered operands). This is the shape shared by
the `Expression` values rewritten by `rules.ts` and the boxed trees consumed
by the expansion engine. -/
inductive Ex where
  | sym : String → Ex
  | num : Int → Ex
  | fn : String → List Ex → Ex
deriving Repr

mutual

def exDecEq : (a b : Ex) → Decidable (a = b)
  | Ex.sym a, Ex.sym b =>
      if h : a = b then .isTrue (by rw [h]) else .isFalse (by simp [h])
  | Ex.num a, Ex.num b =>
      if h : a = b then .isTrue (by rw [h]) else .isFalse (by simp [h])
  | Ex.fn a as, Ex.fn b bs =>
      if h : a = b then
        match exDecEqList as bs with
        | .isTrue hl => .isTrue (by rw [h, hl])
        | .isFalse hl => .isFalse (by simp [h, hl])
      else .isFalse (by simp [h])
  | Ex.sym _, Ex.num _ => .isFalse (by simp)
  | Ex.sym _, Ex.fn _ _ => .isFalse (by simp)
  | Ex.num _, Ex.sym _ => .isFalse (by simp)
  | Ex.num _, Ex.fn _ _ => .isFalse (by simp)
  | Ex.fn _ _, Ex.sym _ => .isFalse (by simp)
  | Ex.fn _ _, Ex.num _ => .isFalse (by simp)

def exDecEqList : (as bs : List Ex) → Decidable (as = bs)
  | [], [] => .isTrue rfl
  | [], _ :: _ => .isFalse (by simp)
  | _ :: _, [] => .isFalse (by simp)
  | a :: as, b :: bs =>
      match exDecEq a b with
      | .isTrue h =>
        match exDecEqList as bs with
        | .isTrue hl => .isTrue (by rw [h, hl])
        | .isFalse hl => .isFalse (by simp [h, hl])
      | .isFalse h => .isFalse (by simp [h])

end

instance : DecidableEq Ex := exDecEq

/-- The placeholder expression the engine uses where an operand is absent. -/
def exNothing : Ex := Ex.sym "Nothing"

/-- Operator (head) of an expression, as read through `expr.head`: function
applications expose their operator name, atoms expose their kind. -/
def Ex.headStr : Ex → String
  | Ex.sym _ => "Symbol"
  | Ex.num _ => "Number"
  | Ex.fn h _ => h

/-- First operand (`expr.op1`). -/
def Ex.op1 : Ex → Ex
  | Ex.fn _ (x :: _) => x
  | _ => exNothing

/-- Second operand (`expr.op2`). -/
def Ex.op2 : Ex → Ex
  | Ex.fn _ (_ :: y :: _) => y
  | _ => exNothing

/-- Operand list (`expr.ops`, empty for atoms). -/
def Ex.opsOf : Ex → List Ex
  | Ex.fn _ xs => xs
  | _ => []


/-! ## Rule rewriting (`rules.ts`) -/

/-- Substitution produced by a successful structural match: pattern-variable
name to matched subexpression (spec section 4.4). -/
abbrev Subst := List (String × Ex)

/-- An identifier names a pattern variable when it starts with an underscore,
the fixed naming convention the `SUBS` table of `rules.ts` maps rule-author
identifiers onto. -/
def isPatternVar (s : String) : Bool :=
  s.data.head? == some '_'

mutual

/-- Modelled from the spec: `match(pattern, candidate)` of `patterns.ts`,
which `rules.ts` imports but which is outside the excerpt. Structural
unification: a pattern variable binds to the subexpression at its position; a
repeated occurrence must bind to a structurally equal subexpression; literal
symbols, operator names and numeric literals must be equal on both sides. -/
def matchExpr : Ex → Ex → Subst → Option Subst
  | Ex.sym s, cand, sub =>
      if isPatternVar s then
        match sub.lookup s with
        | some bound => if bound = cand then some sub else none
        | none => some ((s, cand) :: sub)
      else
        match cand with
        | Ex.sym t => if s = t then some sub else none
        | _ => none
  | Ex.num n, cand, sub =>
      match cand with
      | Ex.num m => if n = m then some sub else none
      | _ => none
  | Ex.fn h args, cand, sub =>
      match cand with
      | Ex.fn h2 args2 => if h = h2 then matchArgs args args2 sub else none
      | _ => none

def matchArgs : List Ex → List Ex → Subst → Option Subst
  | [], [], sub => some sub
  | a :: as, b :: bs, sub =>
      match matchExpr a b sub with
      | some sub2 => matchArgs as bs sub2
      | none => none
  | _, _, _ => none

end

mutual

/-- Modelled from the spec: `substitute(rhs, sub)` of `patterns.ts`: every
bound pattern variable in the replacement is substituted by its matched
expression, rebuilding the tree recursively. -/
def substExpr (sub : Subst) : Ex → Ex
  | Ex.sym s =>
      if isPatternVar s then
        match sub.lookup s with
        | some e => e
        | none => Ex.sym s
      else Ex.sym s
  | Ex.num n => Ex.num n
  | Ex.fn h args => Ex.fn h (substArgs sub args)

def substArgs (sub : Subst) : List Ex → List Ex
  | [] => []
  | a :: as => substExpr sub a :: substArgs sub as

end

/-- A rewriting rule: left-hand pattern, right-hand replacement, optional
guard evaluated on the substitution (`Rule` of `rules.ts`; the `rules`
constructor compiles a textual guard into such a predicate). -/
abbrev RewriteRule := Ex × Ex × Option (Subst → Bool)

/-- `applyRule` of `rules.ts`: match the left-hand pattern at the root; on
success, if a guard is present it must hold for the substitution; then the
replacement is produced by substituting the bindings into the right-hand
side. -/
def applyRule : RewriteRule → Ex → Option Ex
  | (lhs, rhs, condition), expr =>
      match matchExpr lhs expr [] with
      | none => none
      | some sub =>
          match condition with
          | some cond => if cond sub then some (substExpr sub rhs) else none
          | none => some (substExpr sub rhs)

/-- One step of the `for (const rule of rules)` loop inside `replace`: the
accumulator carries the current root expression together with the changed
flag (the negation of the `done` variable updates of the source). -/
def scanStep (acc : Ex × Bool) (r : RewriteRule) : Ex × Bool :=
  match applyRule r acc.1 with
  | some e2 => (e2, true)
  | none => acc

/-- One full scan of the rule set in iteration order, exactly the inner `for`
loop of `replace`: each rule is tried against the current root, and a
successful application updates the root for the rules that follow it in the
same pass. -/
def onePass (rs : List RewriteRule) (e : Ex) : Ex × Bool :=
  rs.foldl scanStep (e, false)

/-- `replace` of `rules.ts`: repeat full passes over the rule set until a pass
applies no rule, then return the current expression. The `while` loop of the
source need not terminate, so the embedding is indexed by fuel; `none` models
divergence, never a returned value. -/
def replaceLoop (fuel : Nat) (rs : List RewriteRule) (e : Ex) : Option Ex :=
  match fuel with
  | 0 => none
  | f + 1 =>
      let p := onePass rs e
      if p.2 then replaceLoop f rs p.1 else some p.1

/-- First rule of the set whose pattern matches at the current root, applied
once (one scan step of the driver as the spec describes it). -/
def firstRuleResult : List RewriteRule → Ex → Option Ex
  | [], _ => none
  | r :: rs, e =>
      match applyRule r e with
      | some e2 => some e2
      | none => firstRuleResult rs e

/-- The rewrite driver as the spec describes it: the first matching rule
triggers a replacement, the scan restarts from the beginning of the rule set
against the new root, and this repeats until no rule matches. Fuel-indexed
like `replaceLoop`. -/
def replaceRestart (fuel : Nat) (rs : List RewriteRule) (e : Ex) : Option Ex :=
  match fuel with
  | 0 => none
  | f + 1 =>
      match firstRuleResult rs e with
      | some e2 => replaceRestart f rs e2
      | none => some e

/-- The `replace` loop reaches its exit condition within some number of
passes. -/
def ReplaceTerminates (rs : List RewriteRule) (e : Ex) : Prop :=
  ∃ fuel, (replaceLoop fuel rs e).isSome

def ruleBX : RewriteRule := (Ex.sym "b", Ex.sym "x", none)

def ruleAB : RewriteRule := (Ex.sym "a", Ex.sym "b", none)

def ruleBY : RewriteRule := (Ex.sym "b", Ex.sym "y", none)

/-- A rule set distinguishing restart-from-the-top scanning from
continue-with-later-rules scanning. -/
def scanDemoRules : List RewriteRule := [ruleBX, ruleAB, ruleBY]

/-- A rule whose replacement equals its pattern, so it matches its own
output. -/
def idDemoRule : RewriteRule := (Ex.sym "a", Ex.sym "a", none)

theorem foldl_scanStep_true (rs : List RewriteRule) :
    ∀ e : Ex, rs.foldl scanStep (e, true) =
      ((rs.foldl scanStep (e, false)).1, true) := by
  induction rs with
  | nil => intro e; rfl
  | cons r rs ih =>
      intro e
      simp only [List.foldl]
      cases h : applyRule r e with
      | some e2 => simp only [scanStep, h]; rw [ih e2]
      | none => simp only [scanStep, h]; exact ih e

theorem onePass_flag_false (rs : List RewriteRule) :
    ∀ e : Ex, (onePass rs e).2 = false → (onePass rs e).1 = e := by
  induction rs with
  | nil => intro e _; rfl
  | cons r rs ih =>
      intro e
      simp only [onePass, List.foldl]
      cases h : applyRule r e with
      | some e2 =>
          simp only [scanStep, h, foldl_scanStep_true]
          intro hc; exact absurd hc (by simp)
      | none => simp only [scanStep, h]; exact ih e

theorem onePass_noMatch (rs : List RewriteRule) (e : Ex)
    (h : ∀ r ∈ rs, applyRule r e = none) : onePass rs e = (e, false) := by
  induction rs with
  | nil => rfl
  | cons r rs ih =>
      simp only [onePass, List.foldl, scanStep, h r (by simp)]
      exact ih (fun r2 hr2 => h r2 (by simp [hr2]))

theorem replaceLoop_id_diverges :
    ∀ f : Nat, replaceLoop f [idDemoRule] (Ex.sym "a") = none := by
  intro f
  induction f with
  | zero => rfl
  | succ f ih =>
      have h1 : onePass [idDemoRule] (Ex.sym "a") = (Ex.sym "a", true) := by
        decide
      simp only [replaceLoop, h1]
      exact ih

/-- Claim C2 (amended): when a rule in the scan matches at the root and
produces a replacement, the scan continues with the next rule of the set
against the new root expression (it does not restart from the beginning), and
`replace` returns only when a full pass over all rules produces no change. -/
theorem claim_C2 :
    (∀ (r : RewriteRule) (rs : List RewriteRule) (e : Ex),
        onePass (r :: rs) e =
          match applyRule r e with
          | some e2 => ((onePass rs e2).1, true)
          | none => onePass rs e) ∧
    (∀ (fuel : Nat) (rs : List RewriteRule) (e e2 : Ex),
        replaceLoop fuel rs e = some e2 → onePass rs e2 = (e2, false)) := by
  constructor
  · intro r rs e
    simp only [onePass, List.foldl]
    cases h : applyRule r e with
    | some e3 => simp only [scanStep, h, foldl_scanStep_true]
    | none => simp only [scanStep, h]
  · intro fuel
    induction fuel with
    | zero => intro rs e e2 h; exact absurd h (by simp [replaceLoop])
    | succ f ih =>
        intro rs e e2 h
        simp only [replaceLoop] at h
        by_cases hc : (onePass rs e).2 = true
        · rw [if_pos hc] at h
          exact ih rs (onePass rs e).1 e2 h
        · rw [if_neg hc] at h
          have he : (onePass rs e).1 = e2 := by
            simpa using h
          have hfalse : (onePass rs e).2 = false := by
            simpa using hc
          have hunch : (onePass rs e).1 = e := onePass_flag_false rs e hfalse
          rw [← he, hunch]
          rw [hunch] at he
          rw [he] at hfalse hunch ⊢
          exact Prod.ext hunch hfalse

theorem claim_C2_witness :
    onePass scanDemoRules (Ex.sym "y") = (Ex.sym "y", false) :=
  claim_C2.2 2 scanDemoRules (Ex.sym "a") (Ex.sym "y") (by decide)

/-- Claim C2 counterexample: on the rule set `[b -> x, a -> b, b -> y]` and
input `a`, the source driver continues the pass after `a -> b` fires and so
applies the later rule `b -> y`, returning `y`; a driver that restarts the
scan from the beginning after every replacement would apply `b -> x` first and
return `x`. -/
theorem claim_C2_counterexample :
    replaceLoop 2 scanDemoRules (Ex.sym "a") = some (Ex.sym "y") ∧
    replaceRestart 3 scanDemoRules (Ex.sym "a") = some (Ex.sym "x") ∧
    (Ex.sym "y" : Ex) ≠ Ex.sym "x" := by
  refine ⟨by decide, by decide, by decide⟩

/-- Claim C10 (amended): whenever the `replace` loop terminates it returns an
expression, never null; in particular, for every rule set in which no rule
matches the current root (the empty rule set included) it terminates after a
single pass and returns the input expression unchanged. -/
theorem claim_C10 (rs : List RewriteRule) (e : Ex) (f : Nat)
    (h : ∀ r ∈ rs, applyRule r e = none) :
    replaceLoop (f + 1) rs e = some e := by
  simp only [replaceLoop, onePass_noMatch rs e h]
  simp

theorem claim_C10_witness :
    replaceLoop 1 scanDemoRules (Ex.sym "z") = some (Ex.sym "z") :=
  claim_C10 scanDemoRules (Ex.sym "z") 0 (by decide)

/-- Claim C10 counterexample: `replace` is not total. A rule whose replacement
equals its own pattern matches its own output, so every pass reports a change
and the `while` loop never exits: no amount of fuel makes the embedded loop
return. -/
theorem claim_C10_counterexample :
    ¬ ReplaceTerminates [idDemoRule] (Ex.sym "a") := by
  rintro ⟨f, h⟩
  rw [replaceLoop_id_diverges f] at h
  simp at h

/-! ## Canonical comparison (`compare` / `equal`; test table of
`comparisons.test.ts`) -/

/-- Three-way comparison of two numeric values, as an integer sign. The
numeric values of the comparison model are integers scaled by a fixed factor
(a fixed-point model sufficient for ordering integer literals against the
circle constant). -/
def cmpVal (a b : Int) : Int :=
  if a < b then -1 else if a = b then 0 else 1

/-- Scale factor of the fixed-point numeric model. -/
def valScale : Int := 100000000

/-- Modelled from the spec: the known constant symbols and their numeric
values used by canonical comparison, in the fixed-point model (the circle
constant at eight fractional digits). -/
def constantValue : String → Option Int
  | "Pi" => some 314159265
  | _ => none

/-- Numeric value of a numeric literal, in the fixed-point model. -/
def literalValue : Ex → Option Int
  | Ex.num n => some (n * valScale)
  | _ => none

/-- Numeric value of a known constant symbol, in the fixed-point model. -/
def constantSymbolValue : Ex → Option Int
  | Ex.sym s => constantValue s
  | _ => none

mutual

/-- Modelled from the spec: the deterministic, non-mathematical structural
ordering used to order the first differing operand position when two
applications of the same operator carry the same operand multiset in a
different order (numeric literals order before symbols, symbols before
applications; each class is ordered internally, names by character order). -/
def structCmp : Ex → Ex → Int
  | Ex.num a, Ex.num b => if a < b then -1 else if a = b then 0 else 1
  | Ex.num _, _ => -1
  | Ex.sym _, Ex.num _ => 1
  | Ex.sym a, Ex.sym b =>
      let la := a.data.map Char.toNat
      let lb := b.data.map Char.toNat
      if la < lb then -1 else if la = lb then 0 else 1
  | Ex.sym _, Ex.fn _ _ => -1
  | Ex.fn _ _, Ex.sym _ => 1
  | Ex.fn _ _, Ex.num _ => 1
  | Ex.fn a as, Ex.fn b bs =>
      let la := a.data.map Char.toNat
      let lb := b.data.map Char.toNat
      if la < lb then -1 else if lb < la then 1 else structCmpList as bs

def structCmpList : List Ex → List Ex → Int
  | [], [] => 0
  | [], _ :: _ => -1
  | _ :: _, [] => 1
  | a :: as, b :: bs =>
      let c := structCmp a b
      if c = 0 then structCmpList as bs else c

end

/-- Modelled from the spec: the tail rules of canonical comparison once the
numeric rules have not applied. If both sides are the identical canonical
expression the result is 0; if both sides apply the same operator to the same
multiset of canonical operands in a different order, compare lexicographically
by operand position; otherwise the sides are incomparable (`none`). -/
def restCompare (a b : Ex) : Option Int :=
  if a = b then some 0
  else
    match a, b with
    | Ex.fn h1 as, Ex.fn h2 bs =>
        if h1 = h2 && as.isPerm bs then some (structCmpList as bs) else none
    | _, _ => none

/-- Modelled from the spec: canonical three-way comparison `compare` (the
implementation is outside the excerpt; the excerpt holds only its test table).
Rules in the spec order: if both sides reduce to real numeric values, compare
numerically; if one side is a numeric literal and the other a known constant
symbol, compare through the constant numeric value; then the structural rules
of `restCompare`. -/
def specCompare (a b : Ex) : Option Int :=
  match literalValue a, literalValue b with
  | some va, some vb => some (cmpVal va vb)
  | some va, none =>
      match constantSymbolValue b with
      | some vb => some (cmpVal va vb)
      | none => restCompare a b
  | none, some vb =>
      match constantSymbolValue a with
      | some va => some (cmpVal va vb)
      | none => restCompare a b
  | none, none => restCompare a b

/-- `equal(a, b)`: true exactly when `compare` yields 0, false when it yields
a non-zero number, undefined when `compare` is undefined. -/
def specEqual (a b : Ex) : Option Bool :=
  (specCompare a b).map (fun c => decide (c = 0))

/-- The `exprs` table of `comparisons.test.ts`: triples
`[a, b, compare(a, b)]` of the expected results the test suite pins the
engine to. -/
def comparisonsTable : List (Ex × Ex × Option Int) :=
  [ (Ex.num 1, Ex.num 1, some 0),
    (Ex.num 1, Ex.num 0, some 1),
    (Ex.num 2, Ex.num 5, some (-1)),
    (Ex.num 5, Ex.num 2, some 1),
    (Ex.num 7, Ex.num 7, some 0),
    (Ex.num 1, Ex.sym "Pi", some (-1)),
    (Ex.sym "Pi", Ex.sym "Pi", some 1),
    (Ex.num 4, Ex.sym "Pi", some 1),
    (Ex.sym "Pi", Ex.num 1, some 1),
    (Ex.sym "Pi", Ex.num 4, some (-1)),
    (Ex.num 1, Ex.sym "x", none),
    (Ex.sym "x", Ex.num 1, none),
    (Ex.sym "x", Ex.sym "y", none),
    (Ex.sym "x", Ex.fn "Foo" [], none),
    (Ex.fn "Foo" [], Ex.sym "x", none),
    (Ex.fn "Add" [Ex.sym "x", Ex.num 1], Ex.fn "Add" [Ex.sym "x", Ex.num 1],
      some 0),
    (Ex.fn "Add" [Ex.num 1, Ex.sym "x"], Ex.fn "Add" [Ex.sym "x", Ex.num 1],
      some (-1)) ]

/-- The table row pinning `compare(Pi, Pi)`. -/
def piPiRow : Ex × Ex × Option Int := (Ex.sym "Pi", Ex.sym "Pi", some 1)

/-- Claim C1: comparison is reflexive — `equal(a, a)` is true and
`compare(a, a)` is 0 for every canonical expression, under the comparison
rules the spec states. The repository test table contradicts this exactly at
the identical pair `(Pi, Pi)`, which it pins to 1 instead of 0 (and hence
`equal(Pi, Pi)` to false); on every other row the table agrees with the
modelled comparison. -/
theorem claim_C1 :
    (∀ e : Ex, specCompare e e = some 0) ∧
    (∀ e : Ex, specEqual e e = some true) ∧
    piPiRow ∈ comparisonsTable ∧
    specCompare piPiRow.1 piPiRow.2.1 = some 0 ∧
    ((comparisonsTable.filter (fun r => !(r == piPiRow))).all
      (fun r => specCompare r.1 r.2.1 == r.2.2)) = true := by
  have hrefl : ∀ e : Ex, specCompare e e = some 0 := by
    intro e
    cases h : literalValue e with
    | some v => simp [specCompare, h, cmpVal]
    | none => simp [specCompare, h, restCompare]
  refine ⟨hrefl, ?_, by decide, by decide, by decide⟩
  intro e
  rw [specEqual, hrefl e]
  rfl

/-! ## Arity checking (`checkArity`) -/

/-- Error node `ce.error("missing")`. -/
def errMissingEx : Ex := Ex.fn "Error" [Ex.sym "missing"]

/-- Error node `ce.error("unexpected-argument", op)` (the source stores the
operand in serialized form; the model keeps the operand itself). -/
def errUnexpectedEx (op : Ex) : Ex :=
  Ex.fn "Error" [Ex.sym "unexpected-argument", op]

/-- Modelled from the spec: `flatten` (module `./flatten`, outside the
excerpt) splices the operands of nested sequence applications into the
enclosing operand list — the sequence-splicing semantics the arity check
relies on. Canonicalization of the operands is not modelled. -/
def flattenSeq (ops : List Ex) : List Ex :=
  ops.flatMap (fun x =>
    match x with
    | Ex.fn "Sequence" xs => xs
    | _ => [x])

/-- `checkArity`: flatten the operands; in non-strict mode pass them through
unchanged; in strict mode, when the length equals `count` pass them through,
otherwise keep the first `count` operands (`ops.slice(0, count)`), pad with
`missing` error nodes while the index is below `count` (first `while` loop)
and flag each remaining operand as `unexpected-argument` (second `while`
loop). -/
def checkArity (strict : Bool) (ops0 : List Ex) (count : Nat) : List Ex :=
  let ops := flattenSeq ops0
  if !strict then ops
  else if ops.length = count then ops
  else
    ops.take count ++ List.replicate (count - ops.length) errMissingEx
      ++ (ops.drop count).map errUnexpectedEx

/-- Claim C6: in strict mode, a short operand list is returned in order
followed by exactly `count - L` `missing` errors at the tail; a long operand
list is returned as its first `count` operands in order followed by an
`unexpected-argument` error for each excess operand at its original position;
in non-strict mode the flattened operands pass through unchanged. -/
theorem claim_C6 (strict : Bool) (ops0 : List Ex) (count : Nat) :
    (strict = true → (flattenSeq ops0).length < count →
        checkArity strict ops0 count =
          flattenSeq ops0 ++
            List.replicate (count - (flattenSeq ops0).length) errMissingEx) ∧
    (strict = true → count < (flattenSeq ops0).length →
        checkArity strict ops0 count =
          (flattenSeq ops0).take count ++
            ((flattenSeq ops0).drop count).map errUnexpectedEx) ∧
    (strict = false → checkArity strict ops0 count = flattenSeq ops0) := by
  refine ⟨?_, ?_, ?_⟩
  · intro hs hlen
    subst hs
    rw [checkArity]
    simp only [Bool.not_true, Bool.false_eq_true, if_false, Nat.ne_of_lt hlen,
      if_false]
    rw [List.take_of_length_le (Nat.le_of_lt hlen),
      List.drop_eq_nil_of_le (Nat.le_of_lt hlen)]
    simp
  · intro hs hlen
    subst hs
    rw [checkArity]
    simp only [Bool.not_true, Bool.false_eq_true, if_false,
      Nat.ne_of_gt hlen, if_false]
    rw [Nat.sub_eq_zero_of_le (Nat.le_of_lt hlen)]
    simp
  · intro hs
    subst hs
    rfl

theorem claim_C6_witness :
    checkArity true [Ex.sym "a"] 2 =
      flattenSeq [Ex.sym "a"] ++
        List.replicate (2 - (flattenSeq [Ex.sym "a"]).length) errMissingEx :=
  (claim_C6 true [Ex.sym "a"] 2).1 rfl (by decide)

/-! ## Numeric flags (`normalizeFlags`) -/

/-- The parity fields of a `NumericFlags` record; each is true, false or
absent, matching the optional boolean fields of the source. The remaining
flags are copied unchanged by the spread copy and are not modelled. -/
structure ParityFlags where
  evenF : Option Bool
  oddF : Option Bool
deriving DecidableEq, Repr, Fintype

/-- `normalizeFlags`: an absent record stays absent; otherwise the record is
copied, then `if (result.odd) result.even = false` and then
`if (result.even) result.odd = false` run in that order (a JavaScript truthy
test on an optional boolean: only the value true is truthy). -/
def normalizeFlags (flags : Option ParityFlags) : Option ParityFlags :=
  match flags with
  | none => none
  | some f =>
      let r1 := if f.oddF.getD false then ParityFlags.mk (some false) f.oddF
                else f
      let r2 := if r1.evenF.getD false then ParityFlags.mk r1.evenF (some false)
                else r1
      some r2

/-- Claim C9 (amended): the two parity flags are never both true in a
normalized record; setting `odd` clears `even`; and setting `even` clears
`odd` provided `odd` is not also set — when both are set, `odd` takes
precedence: `even` is cleared and `odd` stays true. -/
theorem claim_C9 :
    ∀ f : ParityFlags,
      (¬ ((normalizeFlags (some f)).map ParityFlags.evenF = some (some true) ∧
          (normalizeFlags (some f)).map ParityFlags.oddF = some (some true))) ∧
      (f.oddF = some true →
          (normalizeFlags (some f)).map ParityFlags.evenF = some (some false)) ∧
      (f.evenF = some true → f.oddF ≠ some true →
          (normalizeFlags (some f)).map ParityFlags.oddF = some (some false)) := by
  decide

theorem claim_C9_witness :
    (normalizeFlags (some (ParityFlags.mk (some false) (some true)))).map
      ParityFlags.evenF = some (some false) :=
  (claim_C9 (ParityFlags.mk (some false) (some true))).2.1 rfl

/-- Claim C9 counterexample: on the record with both parity flags set,
normalization returns `odd` still true — the odd rule clears `even` first, so
the even rule does not fire and setting `even` does not clear `odd` on this
input. -/
theorem claim_C9_counterexample :
    normalizeFlags (some (ParityFlags.mk (some true) (some true))) =
      some (ParityFlags.mk (some false) (some true)) ∧
    (normalizeFlags (some (ParityFlags.mk (some true) (some true)))).map
      ParityFlags.oddF ≠ some (some false) := by
  refine ⟨by decide, by decide⟩

/-! ## Argument validation (`checkNumericArgs`, `validateArguments`) -/

/-- An element of a finite indexable collection operand, as observed by the
validators: its identity (to record inference against) and whether it is a
number. -/
structure CollElem where
  eid : Nat
  elemIsNumber : Bool
deriving DecidableEq, Repr

/-- A boxed operand as observed by the validators. The fields mirror exactly
the predicates the source reads on a `BoxedExpression`: `aid` identifies the
operand (to record inference against); `argValid` is `isValid`;
`argIsNumber` is `isNumber`; `argSymbol`/`symbolKnown` model `op.symbol` and
whether `ce.lookupSymbol` or `ce.lookupFunction` find a definition;
`typeUnknown` is `type.isUnknown`; `collElems` is `some` exactly when
`isFiniteIndexableCollection(op)`, holding the elements `each(op)` yields;
`symInferred`/`fnInferred` are the truthiness of
`symbolDefinition?.inferredType` and `functionDefinition?.inferredSignature`;
`superNumber` and `superComplex` are `isSubtype("number", op.type.type)` and
`isSubtype("complex", op.type.type)`; `holdArg` is the Hold test; `matchTys`
is the set of types `t` with `op.type.matches(t)` true. -/
structure OpArg where
  aid : Nat
  argValid : Bool
  argIsNumber : Bool
  argSymbol : Option String
  symbolKnown : Bool
  typeUnknown : Bool
  collElems : Option (List CollElem)
  symInferred : Bool
  fnInferred : Bool
  superNumber : Bool
  superComplex : Bool
  holdArg : Bool
  matchTys : List String
deriving DecidableEq, Repr

/-- An entry of a validator result list: an operand passed through (possibly
invalid), or one of the error nodes the context constructs —
`ce.error("missing")`, `ce.error("unexpected-argument", op)` or
`ce.typeError(expected, actual, op)`; the model records the offending operand
identity and, for the type error, the expected type. -/
inductive CheckedArg where
  | ok : OpArg → CheckedArg
  | missingArg : CheckedArg
  | unexpectedArg : Nat → CheckedArg
  | typeErrorArg : String → Nat → CheckedArg
deriving DecidableEq, Repr

/-- A result entry witnessing failed validation: an error node, or an operand
passed through whose `isValid` flag is false. -/
def badChecked : CheckedArg → Bool
  | CheckedArg.ok o => !o.argValid
  | _ => true

/-- One iteration of the strict-mode classification loop of
`checkNumericArgs` at index `i`; the accumulator carries the `isValid` flag
and the output list `xs`, and the branches are in source order. -/
def cnaStep (count : Nat) (ops : List OpArg) (acc : Bool × List CheckedArg)
    (i : Nat) : Bool × List CheckedArg :=
  let isValid := acc.1
  let xs := acc.2
  if count ≤ i then
    (false, xs ++ [CheckedArg.unexpectedArg (((ops.get? i).map OpArg.aid).getD 0)])
  else
    match ops.get? i with
    | none => (false, xs ++ [CheckedArg.missingArg])
    | some op =>
      if !op.argValid then (false, xs ++ [CheckedArg.ok op])
      else if op.argIsNumber then (isValid, xs ++ [CheckedArg.ok op])
      else if op.argSymbol.isSome && !op.symbolKnown then
        (isValid, xs ++ [CheckedArg.ok op])
      else if op.typeUnknown then (isValid, xs ++ [CheckedArg.ok op])
      else
        match op.collElems with
        | some es =>
            -- the element loop clears the flag on a non-number element; the
            -- source then tests `if (!isValid)` to push the type error, here
            -- in the positive form with the two pushes swapped
            let v2 := isValid && es.all CollElem.elemIsNumber
            if v2 then (v2, xs ++ [CheckedArg.ok op])
            else (v2, xs ++ [CheckedArg.typeErrorArg "number" op.aid])
        | none =>
            if op.symInferred && op.superNumber then
              (isValid, xs ++ [CheckedArg.ok op])
            else if op.fnInferred && op.superNumber then
              (isValid, xs ++ [CheckedArg.ok op])
            else if op.holdArg then (isValid, xs ++ [CheckedArg.ok op])
            else (false, xs ++ [CheckedArg.typeErrorArg "number" op.aid])

/-- The type of the all-valid inference commit: real, unless some output
operand has a type that is a supertype of complex, then number. -/
def cnaInferredType (xs : List CheckedArg) : String :=
  if xs.any (fun c =>
      match c with
      | CheckedArg.ok o => o.superComplex
      | _ => false) then "number" else "real"

/-- The classification loop of strict-mode `checkNumericArgs`: the source
iterates `0 ≤ i ≤ max(count - 1, ops.length - 1)` over the `isValid` flag and
the output list. -/
def cnaAcc (count : Nat) (ops : List OpArg) : Bool × List CheckedArg :=
  (List.range (max count ops.length)).foldl (cnaStep count ops) (true, [])

/-- `checkNumericArgs`: the operands are modelled post-`flatten` (module
`./flatten` is outside the excerpt). The result list is paired with the list
of `infer` calls (operand or element identity, inferred type) the run
commits; `infer` mutates definition metadata and is the only mutation the
function performs. In non-strict mode every non-collection operand is
inferred and the operands pass through; in strict mode the classification
loop runs over `0 ≤ i ≤ max(count - 1, ops.length - 1)` and the inference
commit runs only when the `isValid` flag survived the loop. -/
def checkNumericArgs (strict : Bool) (countOpt : Option Nat)
    (ops : List OpArg) : List CheckedArg × List (Nat × String) :=
  if !strict then
    let t := if ops.any OpArg.superComplex then "number" else "real"
    (ops.map CheckedArg.ok,
      (ops.filter (fun o => o.collElems.isNone)).map (fun o => (o.aid, t)))
  else
    let count := countOpt.getD ops.length
    let acc := cnaAcc count ops
    if acc.1 then
      let t := cnaInferredType acc.2
      (acc.2, acc.2.flatMap (fun c =>
        match c with
        | CheckedArg.ok o =>
            match o.collElems with
            | some es => es.map (fun e => (e.eid, t))
            | none => [(o.aid, t)]
        | _ => []))
    else (acc.2, [])

/-- The validity flag is sound for the output list: when it survived, every
entry pushed so far passed validation. -/
def GoodAcc (acc : Bool × List CheckedArg) : Prop :=
  acc.1 = true → ∀ c ∈ acc.2, badChecked c = false

theorem cnaStep_good (count : Nat) (ops : List OpArg)
    (acc : Bool × List CheckedArg) (i : Nat) (h : GoodAcc acc) :
    GoodAcc (cnaStep count ops acc i) := by
  obtain ⟨v, xs⟩ := acc
  rw [cnaStep]
  have hfalse : ∀ l : List CheckedArg, GoodAcc (false, l) := by
    intro l hflag
    exact absurd hflag (by simp)
  by_cases hc : count ≤ i
  · rw [if_pos hc]
    exact hfalse _
  · rw [if_neg hc]
    cases hop : ops.get? i with
    | none => exact hfalse _
    | some op =>
        simp only
        have hkeep : op.argValid = true → GoodAcc (v, xs ++ [CheckedArg.ok op]) := by
          intro h1 hflag c hcmem
          rcases List.mem_append.mp hcmem with hin | hone
          · exact h hflag c hin
          · rw [List.mem_singleton.mp hone]
            simp [badChecked, h1]
        by_cases h1 : op.argValid = true
        · rw [if_neg (by simp [h1])]
          by_cases h2 : op.argIsNumber = true
          · rw [if_pos h2]; exact hkeep h1
          · rw [if_neg h2]
            by_cases h3 : (op.argSymbol.isSome && !op.symbolKnown) = true
            · rw [if_pos h3]; exact hkeep h1
            · rw [if_neg h3]
              by_cases h4 : op.typeUnknown = true
              · rw [if_pos h4]; exact hkeep h1
              · rw [if_neg h4]
                cases hcoll : op.collElems with
                | some es =>
                    simp only
                    by_cases hv : (v && es.all CollElem.elemIsNumber) = true
                    · rw [if_pos hv]
                      intro _ c hcmem
                      have hvv : v = true := by
                        cases v
                        · simp at hv
                        · rfl
                      exact hkeep h1 hvv c hcmem
                    · rw [if_neg hv]
                      intro hflag
                      exact absurd hflag hv
                | none =>
                    by_cases h6 : (op.symInferred && op.superNumber) = true
                    · rw [if_pos h6]; exact hkeep h1
                    · rw [if_neg h6]
                      by_cases h7 : (op.fnInferred && op.superNumber) = true
                      · rw [if_pos h7]; exact hkeep h1
                      · rw [if_neg h7]
                        by_cases h8 : op.holdArg = true
                        · rw [if_pos h8]; exact hkeep h1
                        · rw [if_neg h8]; exact hfalse _
        · rw [if_pos (by revert h1; cases op.argValid <;> simp)]
          exact hfalse _

theorem cna_fold_good (count : Nat) (ops : List OpArg) :
    ∀ (l : List Nat) (acc : Bool × List CheckedArg), GoodAcc acc →
      GoodAcc (l.foldl (cnaStep count ops) acc) := by
  intro l
  induction l with
  | nil => intro acc h; exact h
  | cons i l ih =>
      intro acc h
      exact ih (cnaStep count ops acc i) (cnaStep_good count ops acc i h)

/-- A function signature as consumed by `validateArguments`: required
parameter types, optional parameter types, optional rest parameter type. The
non-signature cases of the source (a plain string type, another kind) return
immediately and are modelled by passing `none`. -/
structure SigModel where
  reqParams : List String
  optParams : List String
  restParam : Option String
deriving DecidableEq, Repr

/-- The per-operand check chain of the required-parameter loop of
`validateArguments` (the source inlines this chain in the loop body): lazy
passthrough, invalid passthrough clearing the flag, unknown-type deferral,
threaded-collection passthrough, inferred symbol type, inferred function
signature, then exact type match or a type-mismatch error. Returns the pushed
entry and the updated `isValid` flag. -/
def vaCheckOpReq (lazy threadable : Bool) (p : String) (op : OpArg)
    (v : Bool) : CheckedArg × Bool :=
  if lazy then (CheckedArg.ok op, v)
  else if !op.argValid then (CheckedArg.ok op, false)
  else if op.typeUnknown then (CheckedArg.ok op, v)
  else if threadable && op.collElems.isSome then (CheckedArg.ok op, v)
  else if op.symInferred && op.matchTys.contains p then (CheckedArg.ok op, v)
  else if op.fnInferred && op.matchTys.contains p then (CheckedArg.ok op, v)
  else if !(op.matchTys.contains p) then
    (CheckedArg.typeErrorArg p op.aid, false)
  else (CheckedArg.ok op, v)

/-- The per-operand check chain of the optional-parameter and rest-parameter
loops of `validateArguments` (also inlined in the source): identical to the
required chain except that these two loops have no inferred-function-signature
branch. -/
def vaCheckOpOpt (lazy threadable : Bool) (p : String) (op : OpArg)
    (v : Bool) : CheckedArg × Bool :=
  if lazy then (CheckedArg.ok op, v)
  else if !op.argValid then (CheckedArg.ok op, false)
  else if op.typeUnknown then (CheckedArg.ok op, v)
  else if threadable && op.collElems.isSome then (CheckedArg.ok op, v)
  else if op.symInferred && op.matchTys.contains p then (CheckedArg.ok op, v)
  else if !(op.matchTys.contains p) then
    (CheckedArg.typeErrorArg p op.aid, false)
  else (CheckedArg.ok op, v)

/-- The required-parameter loop: one iteration per required parameter; a
missing operand pushes a `missing` error and clears the flag (the index
advances unconditionally, `ops[i++]`). Returns the pushed entries, the flag
and the final index. -/
def vaReqLoop (lazy threadable : Bool) (ops : List OpArg) :
    List String → Nat → Bool → List CheckedArg × Bool × Nat
  | [], i, v => ([], v, i)
  | p :: ps, i, v =>
      match ops.get? i with
      | none =>
          let rest := vaReqLoop lazy threadable ops ps (i + 1) false
          (CheckedArg.missingArg :: rest.1, rest.2)
      | some op =>
          let ev := vaCheckOpReq lazy threadable p op v
          let rest := vaReqLoop lazy threadable ops ps (i + 1) ev.2
          (ev.1 :: rest.1, rest.2)

/-- The optional-parameter loop: like the required loop but it stops at the
first missing operand (`if (!op) break`) without error. -/
def vaOptLoop (lazy threadable : Bool) (ops : List OpArg) :
    List String → Nat → Bool → List CheckedArg × Bool × Nat
  | [], i, v => ([], v, i)
  | p :: ps, i, v =>
      match ops.get? i with
      | none => ([], v, i)
      | some op =>
          let ev := vaCheckOpOpt lazy threadable p op v
          let rest := vaOptLoop lazy threadable ops ps (i + 1) ev.2
          (ev.1 :: rest.1, rest.2)

/-- The rest-parameter loop: every remaining operand is checked against the
rest parameter type. -/
def vaRestLoop (lazy threadable : Bool) (p : String) :
    List OpArg → Bool → List CheckedArg × Bool
  | [], v => ([], v)
  | op :: rest, v =>
      let ev := vaCheckOpOpt lazy threadable p op v
      let r := vaRestLoop lazy threadable p rest ev.2
      (ev.1 :: r.1, r.2)

/-- The required-parameter inference loop of the commit step: for each
required parameter, `if (!lazy)` and the operand is not a threaded
collection, infer the parameter type on it; the index advances
unconditionally. -/
def vaInferReq (lazy threadable : Bool) (ops : List OpArg) :
    List String → Nat → List (Nat × String)
  | [], _ => []
  | p :: ps, i =>
      (match ops.get? i with
       | some op =>
           if !lazy && (!threadable || !op.collElems.isSome) then [(op.aid, p)]
           else []
       | none => []) ++ vaInferReq lazy threadable ops ps (i + 1)

/-- The optional-parameter inference loop of the commit step: stops at the
first missing operand; infers the parameter type on each non-threaded
operand. Unlike the required and rest loops, the source guards this loop with
no `if (!lazy)` test, so it runs in lazy mode too — `lazy` does not occur
here. -/
def vaInferOpt (threadable : Bool) (ops : List OpArg) :
    List String → Nat → List (Nat × String)
  | [], _ => []
  | p :: ps, i =>
      match ops.get? i with
      | none => []
      | some op =>
          (if !threadable || !op.collElems.isSome then [(op.aid, p)] else [])
            ++ vaInferOpt threadable ops ps (i + 1)

/-- The rest-parameter inference loop of the commit step: for every remaining
operand, `if (!lazy)` and not a threaded collection, infer the rest parameter
type. -/
def vaInferRest (lazy threadable : Bool) (p : String) (rest : List OpArg) :
    List (Nat × String) :=
  rest.flatMap (fun (op : OpArg) =>
    if !lazy && (!threadable || !op.collElems.isSome) then [(op.aid, p)]
    else [])

/-- The strict-mode body of `validateArguments` for a signature type: walk
required, then optional, then rest parameters; with no rest parameter, any
remaining operands become `unexpected-argument` errors and clear the flag. If
anything was invalid, return the result list and perform no inference;
otherwise commit the inference loops and return null. The returned list is
paired with the `infer` calls performed (the inference loops recompute the
same stopping index the check loops reached, so the model reuses it). -/
def vaCore (lazy threadable : Bool) (ops : List OpArg) (s : SigModel) :
    Option (List CheckedArg) × List (Nat × String) :=
  let req := vaReqLoop lazy threadable ops s.reqParams 0 true
  let opt := vaOptLoop lazy threadable ops s.optParams req.2.2 req.2.1
  let i1 := opt.2.2
  let restR :=
    match s.restParam with
    | some p => vaRestLoop lazy threadable p (ops.drop i1) opt.2.1
    | none => ([], opt.2.1)
  let trailing :=
    match s.restParam with
    | some _ => ([], restR.2)
    | none =>
        ((ops.drop i1).map (fun (op : OpArg) =>
            CheckedArg.unexpectedArg op.aid),
          restR.2 && (ops.drop i1).isEmpty)
  let result := req.1 ++ opt.1 ++ restR.1 ++ trailing.1
  if trailing.2 then
    (none,
      vaInferReq lazy threadable ops s.reqParams 0
        ++ vaInferOpt threadable ops s.optParams s.reqParams.length
        ++ (match s.restParam with
            | some p => vaInferRest lazy threadable p (ops.drop i1)
            | none => []))
  else (some result, [])

/-- `validateArguments`: in non-strict mode, or when the signature is not a
signature type (modelled by `none`), return null with no checks; otherwise
run the strict-mode body `vaCore`. -/
def validateArguments (strict : Bool) (sig : Option SigModel)
    (lazy threadable : Bool) (ops : List OpArg) :
    Option (List CheckedArg) × List (Nat × String) :=
  if !strict then (none, [])
  else
    match sig with
    | none => (none, [])
    | some s => vaCore lazy threadable ops s

theorem vaCheckOpReq_bad (lazy threadable : Bool) (p : String) (op : OpArg)
    (v : Bool)
    (hf : (vaCheckOpReq lazy threadable p op v).2 = false) :
    v = false ∨ badChecked (vaCheckOpReq lazy threadable p op v).1 = true := by
  rw [vaCheckOpReq] at hf ⊢
  by_cases hl : lazy = true
  · rw [if_pos hl] at hf ⊢; exact Or.inl hf
  · rw [if_neg hl] at hf ⊢
    by_cases h1 : op.argValid = true
    · rw [if_neg (by simp [h1])] at hf ⊢
      by_cases h2 : op.typeUnknown = true
      · rw [if_pos h2] at hf ⊢; exact Or.inl hf
      · rw [if_neg h2] at hf ⊢
        by_cases h3 : (threadable && op.collElems.isSome) = true
        · rw [if_pos h3] at hf ⊢; exact Or.inl hf
        · rw [if_neg h3] at hf ⊢
          by_cases h4 : (op.symInferred && op.matchTys.contains p) = true
          · rw [if_pos h4] at hf ⊢; exact Or.inl hf
          · rw [if_neg h4] at hf ⊢
            by_cases h5 : (op.fnInferred && op.matchTys.contains p) = true
            · rw [if_pos h5] at hf ⊢; exact Or.inl hf
            · rw [if_neg h5] at hf ⊢
              by_cases h6 : (!(op.matchTys.contains p)) = true
              · rw [if_pos h6] at hf ⊢
                exact Or.inr rfl
              · rw [if_neg h6] at hf ⊢; exact Or.inl hf
    · rw [if_pos (by revert h1; cases op.argValid <;> simp)] at hf ⊢
      refine Or.inr ?_
      have hv : op.argValid = false := by revert h1; cases op.argValid <;> simp
      simp [badChecked, hv]

theorem vaCheckOpOpt_bad (lazy threadable : Bool) (p : String) (op : OpArg)
    (v : Bool)
    (hf : (vaCheckOpOpt lazy threadable p op v).2 = false) :
    v = false ∨ badChecked (vaCheckOpOpt lazy threadable p op v).1 = true := by
  rw [vaCheckOpOpt] at hf ⊢
  by_cases hl : lazy = true
  · rw [if_pos hl] at hf ⊢; exact Or.inl hf
  · rw [if_neg hl] at hf ⊢
    by_cases h1 : op.argValid = true
    · rw [if_neg (by simp [h1])] at hf ⊢
      by_cases h2 : op.typeUnknown = true
      · rw [if_pos h2] at hf ⊢; exact Or.inl hf
      · rw [if_neg h2] at hf ⊢
        by_cases h3 : (threadable && op.collElems.isSome) = true
        · rw [if_pos h3] at hf ⊢; exact Or.inl hf
        · rw [if_neg h3] at hf ⊢
          by_cases h4 : (op.symInferred && op.matchTys.contains p) = true
          · rw [if_pos h4] at hf ⊢; exact Or.inl hf
          · rw [if_neg h4] at hf ⊢
            by_cases h6 : (!(op.matchTys.contains p)) = true
            · rw [if_pos h6] at hf ⊢
              exact Or.inr rfl
            · rw [if_neg h6] at hf ⊢; exact Or.inl hf
    · rw [if_pos (by revert h1; cases op.argValid <;> simp)] at hf ⊢
      refine Or.inr ?_
      have hv : op.argValid = false := by revert h1; cases op.argValid <;> simp
      simp [badChecked, hv]

theorem vaReqLoop_bad (lazy threadable : Bool) (ops : List OpArg) :
    ∀ (ps : List String) (i : Nat) (v : Bool),
      (vaReqLoop lazy threadable ops ps i v).2.1 = false →
      v = false ∨
        ∃ c ∈ (vaReqLoop lazy threadable ops ps i v).1, badChecked c = true := by
  intro ps
  induction ps with
  | nil => intro i v hf; exact Or.inl hf
  | cons p ps ih =>
      intro i v hf
      rw [vaReqLoop] at hf ⊢
      cases hop : ops.get? i with
      | none =>
          rw [hop] at hf
          simp only at hf ⊢
          exact Or.inr ⟨CheckedArg.missingArg, by simp, rfl⟩
      | some op =>
          rw [hop] at hf
          simp only at hf ⊢
          rcases ih (i + 1) (vaCheckOpReq lazy threadable p op v).2 hf with
            hv2 | ⟨c, hcm, hcb⟩
          · rcases vaCheckOpReq_bad lazy threadable p op v hv2 with hv | hb
            · exact Or.inl hv
            · exact Or.inr ⟨_, by simp, hb⟩
          · exact Or.inr ⟨c, by simp [hcm], hcb⟩

theorem vaOptLoop_bad (lazy threadable : Bool) (ops : List OpArg) :
    ∀ (ps : List String) (i : Nat) (v : Bool),
      (vaOptLoop lazy threadable ops ps i v).2.1 = false →
      v = false ∨
        ∃ c ∈ (vaOptLoop lazy threadable ops ps i v).1, badChecked c = true := by
  intro ps
  induction ps with
  | nil => intro i v hf; exact Or.inl hf
  | cons p ps ih =>
      intro i v hf
      rw [vaOptLoop] at hf ⊢
      cases hop : ops.get? i with
      | none =>
          rw [hop] at hf
          simp only at hf ⊢
          exact Or.inl hf
      | some op =>
          rw [hop] at hf
          simp only at hf ⊢
          rcases ih (i + 1) (vaCheckOpOpt lazy threadable p op v).2 hf with
            hv2 | ⟨c, hcm, hcb⟩
          · rcases vaCheckOpOpt_bad lazy threadable p op v hv2 with hv | hb
            · exact Or.inl hv
            · exact Or.inr ⟨_, by simp, hb⟩
          · exact Or.inr ⟨c, by simp [hcm], hcb⟩

theorem vaRestLoop_bad (lazy threadable : Bool) (p : String) :
    ∀ (l : List OpArg) (v : Bool),
      (vaRestLoop lazy threadable p l v).2 = false →
      v = false ∨
        ∃ c ∈ (vaRestLoop lazy threadable p l v).1, badChecked c = true := by
  intro l
  induction l with
  | nil => intro v hf; exact Or.inl hf
  | cons op l ih =>
      intro v hf
      rw [vaRestLoop] at hf ⊢
      simp only at hf ⊢
      rcases ih (vaCheckOpOpt lazy threadable p op v).2 hf with
        hv2 | ⟨c, hcm, hcb⟩
      · rcases vaCheckOpOpt_bad lazy threadable p op v hv2 with hv | hb
        · exact Or.inl hv
        · exact Or.inr ⟨_, by simp, hb⟩
      · exact Or.inr ⟨c, by simp [hcm], hcb⟩

theorem cna_fst (countOpt : Option Nat) (ops : List OpArg) :
    (checkNumericArgs true countOpt ops).1 =
      (cnaAcc (countOpt.getD ops.length) ops).2 := by
  rw [checkNumericArgs]
  simp only [Bool.not_true]
  rw [if_neg (by simp)]
  by_cases hval : (cnaAcc (countOpt.getD ops.length) ops).1 = true
  · rw [if_pos hval]
  · rw [if_neg hval]

theorem cna_snd_invalid (countOpt : Option Nat) (ops : List OpArg)
    (h : (cnaAcc (countOpt.getD ops.length) ops).1 = false) :
    (checkNumericArgs true countOpt ops).2 = [] := by
  rw [checkNumericArgs]
  simp only [Bool.not_true]
  rw [if_neg (by simp)]
  rw [if_neg (by simp [h])]


theorem vaCore_some (lazy threadable : Bool) (ops : List OpArg) (s : SigModel)
    (r : List CheckedArg) (h : (vaCore lazy threadable ops s).1 = some r) :
    (vaCore lazy threadable ops s).2 = [] ∧ ∃ c ∈ r, badChecked c = true := by
  rw [vaCore] at h ⊢
  set req := vaReqLoop lazy threadable ops s.reqParams 0 true with hreqdef
  set opt := vaOptLoop lazy threadable ops s.optParams req.2.2 req.2.1
    with hoptdef
  cases hrest : s.restParam with
  | none =>
      rw [hrest] at h
      simp only at h ⊢
      by_cases hval : (opt.2.1 && (ops.drop opt.2.2).isEmpty) = true
      · rw [if_pos hval] at h
        exact absurd h (by simp)
      · rw [if_neg hval] at h ⊢
        refine ⟨rfl, ?_⟩
        simp only at h
        have hr : req.1 ++ opt.1 ++ [] ++
            ((ops.drop opt.2.2).map (fun (op : OpArg) =>
              CheckedArg.unexpectedArg op.aid)) = r := Option.some.inj h
        subst hr
        by_cases hopt1 : opt.2.1 = true
        · have hne : (ops.drop opt.2.2).isEmpty = false := by
            cases hie : (ops.drop opt.2.2).isEmpty
            · rfl
            · exact absurd (by rw [hopt1, hie]; rfl) hval
          cases hd : ops.drop opt.2.2 with
          | nil => rw [hd] at hne; exact absurd hne (by simp)
          | cons x xs =>
              exact ⟨CheckedArg.unexpectedArg x.aid, by simp [hd], rfl⟩
        · have hof : opt.2.1 = false := Bool.eq_false_iff.mpr hopt1
          rcases vaOptLoop_bad lazy threadable ops s.optParams req.2.2 req.2.1
              hof with hreqf | ⟨c, hcm, hcb⟩
          · rcases vaReqLoop_bad lazy threadable ops s.reqParams 0 true hreqf
              with htrue | ⟨c, hcm, hcb⟩
            · exact absurd htrue (by simp)
            · exact ⟨c, by simp [hcm], hcb⟩
          · exact ⟨c, by simp [hcm], hcb⟩
  | some p =>
      rw [hrest] at h
      simp only at h ⊢
      by_cases hval : (vaRestLoop lazy threadable p (ops.drop opt.2.2)
          opt.2.1).2 = true
      · rw [if_pos hval] at h
        exact absurd h (by simp)
      · rw [if_neg hval] at h ⊢
        refine ⟨rfl, ?_⟩
        simp only at h
        have hr : req.1 ++ opt.1 ++
            (vaRestLoop lazy threadable p (ops.drop opt.2.2) opt.2.1).1 ++ [] =
            r := Option.some.inj h
        subst hr
        have hrf : (vaRestLoop lazy threadable p (ops.drop opt.2.2)
            opt.2.1).2 = false := Bool.eq_false_iff.mpr hval
        rcases vaRestLoop_bad lazy threadable p (ops.drop opt.2.2) opt.2.1 hrf
          with hof | ⟨c, hcm, hcb⟩
        · rcases vaOptLoop_bad lazy threadable ops s.optParams req.2.2 req.2.1
              hof with hreqf | ⟨c, hcm, hcb⟩
          · rcases vaReqLoop_bad lazy threadable ops s.reqParams 0 true hreqf
              with htrue | ⟨c, hcm, hcb⟩
            · exact absurd htrue (by simp)
            · exact ⟨c, by simp [hcm], hcb⟩
          · exact ⟨c, by simp [hcm], hcb⟩
        · exact ⟨c, by simp [hcm], hcb⟩

/-- An operand whose `isValid` flag is false. -/
def invalidOpArg : OpArg :=
  ⟨1, false, false, none, false, false, none, false, false, false, false,
    false, []⟩

/-- A signature with no required parameter, one optional parameter and no
rest parameter. -/
def lazyOptSig : SigModel := ⟨[], ["number"], none⟩

/-- Claim C3: the all-or-nothing inference commit fails in the source. In
strict mode with a lazy operator, a signature with one optional `number`
parameter and a single operand whose `isValid` flag is false, the check loops
pass the invalid operand through (the lazy test precedes the validity test),
so `validateArguments` treats validation as successful and returns null — and
the optional-parameter inference loop, which lacks the `if (!lazy)` guard of
the required and rest loops, then calls `infer` on the invalid operand. The
commit is all-or-nothing everywhere else: strict `checkNumericArgs` makes no
`infer` call whenever its result contains an error node or invalid entry, and
strict `validateArguments` performs no inference whenever it returns a
failure list instead of null. -/
theorem claim_C3 :
    (invalidOpArg.argValid = false ∧
      validateArguments true (some lazyOptSig) true false [invalidOpArg] =
        (none, [(1, "number")])) ∧
    (∀ (countOpt : Option Nat) (ops : List OpArg),
        (∃ c ∈ (checkNumericArgs true countOpt ops).1, badChecked c = true) →
        (checkNumericArgs true countOpt ops).2 = []) ∧
    (∀ (s : SigModel) (lazy threadable : Bool) (ops : List OpArg)
        (r : List CheckedArg),
        (validateArguments true (some s) lazy threadable ops).1 = some r →
        (validateArguments true (some s) lazy threadable ops).2 = [] ∧
          ∃ c ∈ r, badChecked c = true) := by
  refine ⟨⟨by decide, by decide⟩, ?_, ?_⟩
  · intro countOpt ops hex
    obtain ⟨c, hcm, hcb⟩ := hex
    rw [cna_fst] at hcm
    have hgood : GoodAcc (cnaAcc (countOpt.getD ops.length) ops) :=
      cna_fold_good _ ops _ (true, []) (fun _ c hc => absurd hc (by simp))
    have hval : (cnaAcc (countOpt.getD ops.length) ops).1 = false := by
      cases hv : (cnaAcc (countOpt.getD ops.length) ops).1
      · rfl
      · exact absurd hcb (by simp [hgood hv c hcm])
    exact cna_snd_invalid countOpt ops hval
  · intro s lazy threadable ops r h
    have hva : validateArguments true (some s) lazy threadable ops =
        vaCore lazy threadable ops s := rfl
    rw [hva] at h ⊢
    exact vaCore_some lazy threadable ops s r h

theorem claim_C3_witness :
    (checkNumericArgs true none [invalidOpArg]).2 = [] :=
  claim_C3.2.1 none [invalidOpArg] (by decide)

/-- A valid operand with a known concrete type matching the optional
parameter. -/
def lazyOptArg : OpArg :=
  ⟨7, true, false, none, true, false, none, false, false, false, false,
    false, ["number"]⟩

/-- Claim C7 evaluated at the failing input: strict `validateArguments` in
lazy mode against a signature with one optional parameter passes the operand
through unchecked and returns null, but still calls `infer` on the optional
operand — the optional-parameter inference loop lacks the `if (!lazy)` guard
the required and rest loops have, so lazy mode is not inference-free. -/
theorem claim_C7 :
    validateArguments true (some lazyOptSig) true false [lazyOptArg] =
      (none, [(7, "number")]) := by decide

/-! ## Algebraic expansion (`symbolic/expand.ts`) -/

/-- The `powers` generator: all the combinations of `n` non-negative integers
that sum to `exp`, materialized as the list of its yields in emission order —
`n = 1` yields `[exp]`; otherwise the outer loop walks the first component
`i` from 0 to `exp` ascending and recursively enumerates the remaining
components of sum `exp - i`. The source generator is only ever called with
`n ≥ 1`; `n = 0` (which would not terminate there) is mapped to the empty
enumeration. -/
def powersList : Nat → Nat → List (List Nat)
  | 0, _ => []
  | 1, e => [[e]]
  | n + 2, e =>
      (List.range (e + 1)).flatMap (fun i =>
        (powersList (n + 1) (e - i)).map (fun p => i :: p))

theorem lexLt_irrefl : ∀ l : List Nat, ¬ List.Lex (· < ·) l l := by
  intro l
  induction l with
  | nil => intro h; cases h
  | cons a l ih =>
      intro h
      cases h with
      | cons h2 => exact ih h2
      | rel h2 => exact absurd h2 (lt_irrefl a)

theorem powersList_mem : ∀ (n e : Nat) (l : List Nat), 1 ≤ n →
    (l ∈ powersList n e ↔ l.length = n ∧ l.sum = e) := by
  intro n
  induction n with
  | zero => intro e l h; exact absurd h (by simp)
  | succ n ih =>
      intro e l _
      cases n with
      | zero =>
          constructor
          · intro hm
            rw [powersList] at hm
            simp only [List.mem_singleton] at hm
            subst hm
            simp
          · rintro ⟨hl, hs⟩
            cases l with
            | nil => simp at hl
            | cons a t =>
                cases t with
                | nil =>
                    simp only [List.sum_cons, List.sum_nil] at hs
                    rw [powersList]
                    simp [← hs]
                | cons b t2 => simp at hl
      | succ m =>
          constructor
          · intro hm
            rw [powersList] at hm
            simp only [List.mem_flatMap, List.mem_map, List.mem_range] at hm
            obtain ⟨i, hi, p, hp, rfl⟩ := hm
            obtain ⟨hplen, hpsum⟩ := (ih (e - i) p (by omega)).mp hp
            refine ⟨by simp [hplen], ?_⟩
            simp only [List.sum_cons, hpsum]
            omega
          · rintro ⟨hl, hs⟩
            cases l with
            | nil => simp at hl
            | cons a t =>
                rw [powersList]
                simp only [List.mem_flatMap, List.mem_map, List.mem_range]
                simp only [List.sum_cons] at hs
                refine ⟨a, by omega, t, ?_, rfl⟩
                refine (ih (e - a) t (by omega)).mpr ⟨by simpa using hl, by omega⟩

theorem pairwise_flatMap_of (f : Nat → List (List Nat)) :
    ∀ (l : List Nat), l.Pairwise (· < ·) →
      (∀ i, (f i).Pairwise (List.Lex (· < ·))) →
      (∀ i j x y, i < j → x ∈ f i → y ∈ f j → List.Lex (· < ·) x y) →
      (l.flatMap f).Pairwise (List.Lex (· < ·)) := by
  intro l
  induction l with
  | nil => intro _ _ _; simp
  | cons i l ih =>
      intro hp hf hcross
      simp only [List.flatMap_cons]
      apply List.pairwise_append.mpr
      refine ⟨hf i, ih (List.Pairwise.of_cons hp) hf hcross, ?_⟩
      intro x hx y hy
      obtain ⟨j, hj, hyj⟩ := List.mem_flatMap.mp hy
      exact hcross i j x y ((List.pairwise_cons.mp hp).1 j hj) hx hyj

theorem powersList_pairwise : ∀ n e : Nat,
    (powersList n e).Pairwise (List.Lex (· < ·)) := by
  intro n
  induction n with
  | zero => intro e; rw [powersList]; exact List.Pairwise.nil
  | succ n ih =>
      intro e
      cases n with
      | zero => rw [powersList]; simp
      | succ m =>
          rw [powersList]
          apply pairwise_flatMap_of
          · exact List.pairwise_lt_range _
          · intro i
            exact (ih (e - i)).map _ (fun a b h => List.Lex.cons h)
          · intro i j x y hij hx hy
            obtain ⟨p, hp, rfl⟩ := List.mem_map.mp hx
            obtain ⟨q, hq, rfl⟩ := List.mem_map.mp hy
            exact List.Lex.rel hij

/-- Claim C5: for every `n ≥ 1` and `exp ≥ 0`, `powers(n, exp)` yields
exactly the tuples of `n` non-negative integers summing to `exp` — each
exactly once — and the fixed emission order (first component ascending in the
outer loop, remaining components enumerated recursively the same way) is
strictly increasing lexicographic order. -/
theorem claim_C5 (n e : Nat) (h : 1 ≤ n) :
    (∀ l : List Nat, l ∈ powersList n e ↔ l.length = n ∧ l.sum = e) ∧
    (powersList n e).Pairwise (List.Lex (· < ·)) ∧
    (powersList n e).Nodup := by
  refine ⟨fun l => powersList_mem n e l h, powersList_pairwise n e, ?_⟩
  refine (powersList_pairwise n e).imp ?_
  intro a b hab heq
  rw [heq] at hab
  exact lexLt_irrefl b hab

theorem claim_C5_witness :
    (powersList 2 2).Nodup ∧
    ([1, 1] ∈ powersList 2 2 ↔ ([1, 1] : List Nat).length = 2 ∧
      ([1, 1] : List Nat).sum = 2) :=
  ⟨(claim_C5 2 2 (by decide)).2.2, (claim_C5 2 2 (by decide)).1 [1, 1]⟩

/-- Modelled from the spec: `canonicalNegate` (module `symbolic/negate`,
outside the excerpt): negating a numeric literal folds into the literal,
anything else wraps in a `Negate` node. -/
def canonicalNegate : Ex → Ex
  | Ex.num n => Ex.num (-n)
  | e => Ex.fn "Negate" [e]

/-- Modelled from the spec: the canonical n-ary product constructor
`ce.mul`: literal factors 1 are dropped, an empty product is 1, a singleton
product is its factor, anything else is a `Multiply` node (the full engine
also sorts and folds factors; the claims below that depend on term order are
stated on multisets of terms). -/
def mkMulN (xs : List Ex) : Ex :=
  match xs.filter (fun x => x != Ex.num 1) with
  | [] => Ex.num 1
  | [y] => y
  | ys => Ex.fn "Multiply" ys

/-- Modelled from the spec: the canonical n-ary sum constructor `ce.add`: an
empty sum is 0, a singleton is its term, anything else an `Add` node. -/
def mkAddN (xs : List Ex) : Ex :=
  match xs with
  | [] => Ex.num 0
  | [x] => x
  | _ => Ex.fn "Add" xs

/-- Modelled from the spec: `ce.div`. -/
def mkDiv (a b : Ex) : Ex := Ex.fn "Divide" [a, b]

/-- Modelled from the spec: `ce.pow`. -/
def mkPow (a : Ex) (n : Int) : Ex := Ex.fn "Power" [a, Ex.num n]

/-- Modelled from the spec: `ce.inv`, the engine inverse. -/
def mkInv (a : Ex) : Ex := mkDiv (Ex.num 1) a

/-- Modelled from the spec: `ce.neg`. -/
def mkNeg (a : Ex) : Ex := canonicalNegate a

/-- Modelled from the spec: `asMachineInteger` (module
`boxed-expression/numerics`, outside the excerpt): the machine-integer value
of an integer literal, null otherwise. -/
def asMachInt : Ex → Option Int
  | Ex.num n => some n
  | _ => none

/-- Modelled from the spec: `isRelationalOperator` consults the relational
operator dictionary of the parser/serializer collaborator. -/
def isRelationalOp (h : String) : Bool :=
  h == "Equal" || h == "NotEqual" || h == "Less" || h == "LessEqual" ||
    h == "Greater" || h == "GreaterEqual"

/-- One extension step of the cached Pascal triangle of `choose`: from row
`prev` of length `s`, the next row is `1`, then `prev[i-1] + prev[i]` for
`1 ≤ i < s`, then a final `1`. -/
def pascalNext (prev : List Nat) : List Nat :=
  [1] ++ ((List.range (prev.length - 1)).map (fun i =>
    prev.getD i 0 + prev.getD (i + 1) 0)) ++ [1]

/-- Row `n` of the Pascal triangle; the `binomials` table of the source holds
rows 0 to 8 literally and `choose` extends it by this same recurrence on
demand. -/
def pascalRow : Nat → List Nat
  | 0 => [1]
  | n + 1 => pascalNext (pascalRow n)

/-- `choose(n, k)`: entry `k` of row `n` of the table (the callers never read
outside the row). -/
def chooseTbl (n k : Nat) : Nat := (pascalRow n).getD k 0

/-- `multinomialCoefficient(k)`: starting from `n` = the sum of the entries,
multiply `choose(n, k[i])` and shrink `n` by `k[i]`, left to right. -/
def multinomialCoefficient (ks : List Nat) : Nat :=
  (ks.foldl (fun acc k => (acc.1 - k, acc.2 * chooseTbl acc.1 k))
    (ks.sum, 1)).2

/-- `distribute2(lhs, rhs)`: pairwise distribution. Negations are pushed
outward (a double negation cancels), quotients distribute through their
numerators while denominators multiply, and a sum on either side distributes
across the other operand; otherwise the product is formed. The source reads
`op1`/`op2`, so the `Negate`/`Divide` cases require the operand to be
present; a degenerate zero-operand node (which the engine never builds) falls
through to the product case here. -/
def distribute2 : Ex → Ex → Ex
  | Ex.fn "Negate" (l :: _), Ex.fn "Negate" (r :: _) => distribute2 l r
  | Ex.fn "Negate" (l :: _), rhs => canonicalNegate (distribute2 l rhs)
  | lhs, Ex.fn "Negate" (r :: _) => canonicalNegate (distribute2 lhs r)
  | Ex.fn "Divide" (a :: b :: _), Ex.fn "Divide" (c :: d :: _) =>
      mkDiv (distribute2 a c) (mkMulN [b, d])
  | Ex.fn "Divide" (a :: b :: _), rhs => mkDiv (distribute2 a rhs) b
  | lhs, Ex.fn "Divide" (c :: d :: _) => mkDiv (distribute2 lhs c) d
  | Ex.fn "Add" ls, rhs => mkAddN (ls.attach.map (fun x => distribute2 x.1 rhs))
  | lhs, Ex.fn "Add" rs => mkAddN (rs.attach.map (fun x => distribute2 lhs x.1))
  | lhs, rhs => mkMulN [lhs, rhs]
termination_by l r => sizeOf l + sizeOf r
decreasing_by
  all_goals simp_wf
  all_goals try omega
  all_goals have h := List.sizeOf_lt_of_mem x.2
  all_goals omega

mutual

/-- `distribute(ce, head, ops)`: a `Power` head dispatches to `expandPower`
on the machine-integer exponent; `Negate` distributes as multiplication by
-1; `Divide` distributes its numerator and divides back; `Multiply` reduces
right to left to pairwise `distribute2`; anything else is null. Fuel-indexed:
the outer `Option` is fuel exhaustion (the source recursion through
`expandPower`/`expand` offers no structural measure and need not terminate on
degenerate inputs), the inner `Option` is the null of the source. -/
def distribute (sAdd : List Ex → Ex) : Nat → String → List Ex →
    Option (Option Ex)
  | 0, _, _ => none
  | f + 1, head, ops =>
      if head = "Power" then
        match ops.get? 1 with
        | none => some none
        | some e2 =>
            match asMachInt e2 with
            | none => some none
            | some exp =>
                match ops.get? 0 with
                | none => some none
                | some b => expandPower sAdd f b exp
      else if head = "Negate" then
        distribute sAdd f "Multiply" [Ex.num (-1), ops.headD exNothing]
      else if head = "Divide" then
        match ops.get? 0 with
        | some (Ex.fn h hops) =>
            match distribute sAdd f h hops with
            | none => none
            | some none => some none
            | some (some numr) =>
                some (some (mkDiv numr (ops.getD 1 exNothing)))
        | _ => some none
      else if head = "Multiply" then
        match ops with
        | [x] => some (some x)
        | [x, y] => some (some (distribute2 x y))
        | x :: rest =>
            match distribute sAdd f "Multiply" rest with
            | none => none
            | some none => some none
            | some (some rhs) => some (some (distribute2 x rhs))
        | [] => distribute sAdd f "Multiply" []
      else some none

/-- `expandPower(base, exp)`: a negative exponent inverts the expansion of
the opposite exponent (null stays null); exponent 0 is one; exponent 1 is
`expand(base)`; a `Negate` base expands its magnitude and negates exactly
when the exponent is odd; a base that is not an `Add` node is null;
otherwise the multinomial theorem builds one term per composition yielded by
`powers`, with the multinomial coefficient first and each addend raised to
its composition exponent (omitted at exponent 0, bare at exponent 1). -/
def expandPower (sAdd : List Ex → Ex) : Nat → Ex → Int → Option (Option Ex)
  | 0, _, _ => none
  | f + 1, base, exp =>
      if exp < 0 then
        match expandPower sAdd f base (-exp) with
        | none => none
        | some none => some none
        | some (some r) => some (some (mkInv r))
      else if exp = 0 then some (some (Ex.num 1))
      else if exp = 1 then expand sAdd f base
      else if base.headStr = "Negate" then
        match expandPower sAdd f base.op1 exp with
        | none => none
        | some none => some none
        | some (some r) =>
            some (some (if exp % 2 = 0 then r else mkNeg r))
      else if base.headStr ≠ "Add" then some none
      else
        some (some (mkAddN ((powersList base.opsOf.length exp.toNat).map
          (fun ks =>
            mkMulN (Ex.num (Int.ofNat (multinomialCoefficient ks)) ::
              ((base.opsOf.zip ks).filterMap (fun tk =>
                if tk.2 = 0 then none
                else if tk.2 = 1 then some tk.1
                else some (mkPow tk.1 (Int.ofNat tk.2)))))))))

/-- `expandMultinomial(expr)`: a `Power` node with a machine-integer exponent
dispatches to `expandPower`; anything else is null. -/
def expandMultinomial (sAdd : List Ex → Ex) : Nat → Ex → Option (Option Ex)
  | 0, _ => none
  | f + 1, expr =>
      if expr.headStr ≠ "Power" then some none
      else
        match asMachInt expr.op2 with
        | none => some none
        | some exp => expandPower sAdd f expr.op1 exp

/-- `expandNumerator(expr)`: expand the numerator of a `Divide`; if the
expansion is a sum, distribute the denominator across its terms. -/
def expandNumerator (sAdd : List Ex → Ex) : Nat → Ex → Option (Option Ex)
  | 0, _ => none
  | f + 1, expr =>
      if expr.headStr ≠ "Divide" then some none
      else
        match expand sAdd f expr.op1 with
        | none => none
        | some none => some none
        | some (some en) =>
            match en with
            | Ex.fn "Add" ops =>
                some (some (mkAddN (ops.map (fun x => mkDiv x expr.op2))))
            | _ => some (some (mkDiv en expr.op2))

/-- `expand(expr)`: relational operators expand both operands and rebuild
through `_fn`; then `expandNumerator` handles fractions; `Multiply` calls
`distribute`; `Add` defers to the external arithmetic simplifier
(`simplifyAdd`, the collaborator outside the excerpt, passed here as the
explicit parameter `sAdd`); `Negate` expands its operand and re-negates;
`Power` calls `expandMultinomial`; anything else is null. -/
def expand (sAdd : List Ex → Ex) : Nat → Ex → Option (Option Ex)
  | 0, _ => none
  | f + 1, expr =>
      if isRelationalOp expr.headStr then
        match expr.opsOf.mapM (fun x => expand sAdd f x) with
        | none => none
        | some rs =>
            some (some (Ex.fn expr.headStr
              (List.zipWith (fun r x => r.getD x) rs expr.opsOf)))
      else
        match expandNumerator sAdd f expr with
        | none => none
        | some (some r) => some (some r)
        | some none =>
            if expr.headStr = "Multiply" then
              distribute sAdd f "Multiply" expr.opsOf
            else if expr.headStr = "Add" then some (some (sAdd expr.opsOf))
            else if expr.headStr = "Negate" then
              match expand sAdd f expr.op1 with
              | none => none
              | some none => some none
              | some (some op) => some (some (mkNeg op))
            else if expr.headStr = "Power" then expandMultinomial sAdd f expr
            else some none

end

/-- Terms of `expand((a+b)^2)` in emission order. -/
def expandSqBinomial : List Ex :=
  [Ex.fn "Power" [Ex.sym "b", Ex.num 2],
   Ex.fn "Multiply" [Ex.num 2, Ex.sym "a", Ex.sym "b"],
   Ex.fn "Power" [Ex.sym "a", Ex.num 2]]

/-- Terms of `a^2 + 2ab + b^2`, as the claim writes them. -/
def claimSqBinomial : List Ex :=
  [Ex.fn "Power" [Ex.sym "a", Ex.num 2],
   Ex.fn "Multiply" [Ex.num 2, Ex.sym "a", Ex.sym "b"],
   Ex.fn "Power" [Ex.sym "b", Ex.num 2]]

/-- Terms of `expand((a+b)^3)` in emission order. -/
def expandCubeBinomial : List Ex :=
  [Ex.fn "Power" [Ex.sym "b", Ex.num 3],
   Ex.fn "Multiply" [Ex.num 3, Ex.sym "a",
     Ex.fn "Power" [Ex.sym "b", Ex.num 2]],
   Ex.fn "Multiply" [Ex.num 3, Ex.fn "Power" [Ex.sym "a", Ex.num 2],
     Ex.sym "b"],
   Ex.fn "Power" [Ex.sym "a", Ex.num 3]]

/-- Terms of `a^3 + 3a^2b + 3ab^2 + b^3`, as the claim writes them. -/
def claimCubeBinomial : List Ex :=
  [Ex.fn "Power" [Ex.sym "a", Ex.num 3],
   Ex.fn "Multiply" [Ex.num 3, Ex.fn "Power" [Ex.sym "a", Ex.num 2],
     Ex.sym "b"],
   Ex.fn "Multiply" [Ex.num 3, Ex.sym "a",
     Ex.fn "Power" [Ex.sym "b", Ex.num 2]],
   Ex.fn "Power" [Ex.sym "b", Ex.num 3]]

/-- Terms of `expand((a+b+c)^2)` in emission order. -/
def expandSqTrinomial : List Ex :=
  [Ex.fn "Power" [Ex.sym "c", Ex.num 2],
   Ex.fn "Multiply" [Ex.num 2, Ex.sym "b", Ex.sym "c"],
   Ex.fn "Power" [Ex.sym "b", Ex.num 2],
   Ex.fn "Multiply" [Ex.num 2, Ex.sym "a", Ex.sym "c"],
   Ex.fn "Multiply" [Ex.num 2, Ex.sym "a", Ex.sym "b"],
   Ex.fn "Power" [Ex.sym "a", Ex.num 2]]

/-- Terms of `a^2+b^2+c^2+2ab+2ac+2bc`, as the claim writes them. -/
def claimSqTrinomial : List Ex :=
  [Ex.fn "Power" [Ex.sym "a", Ex.num 2],
   Ex.fn "Power" [Ex.sym "b", Ex.num 2],
   Ex.fn "Power" [Ex.sym "c", Ex.num 2],
   Ex.fn "Multiply" [Ex.num 2, Ex.sym "a", Ex.sym "b"],
   Ex.fn "Multiply" [Ex.num 2, Ex.sym "a", Ex.sym "c"],
   Ex.fn "Multiply" [Ex.num 2, Ex.sym "b", Ex.sym "c"]]

/-- Claim C4: the case analysis of `expandPower` — exponent 0 gives one,
exponent 1 gives `expand(base)`, a negative exponent inverts the expansion of
the opposite exponent propagating null, a `Negate` base expands the magnitude
and negates exactly for odd exponents, and a base that is neither `Negate`
nor `Add` (with exponent outside the special cases) is not expandable — and
the three multinomial examples, whose sums equal the claimed sums as
multisets of terms (the engine collaborator `simplifyAdd` is abstracted as
the parameter `sAdd`; none of these paths reach it). -/
theorem claim_C4 :
    (∀ (sAdd : List Ex → Ex) (f : Nat) (b : Ex) (e : Int),
      expandPower sAdd (f + 1) b 0 = some (some (Ex.num 1)) ∧
      expandPower sAdd (f + 1) b 1 = expand sAdd f b ∧
      (e < 0 → expandPower sAdd (f + 1) b e =
        (match expandPower sAdd f b (-e) with
         | none => none
         | some none => some none
         | some (some r) => some (some (mkInv r)))) ∧
      (2 ≤ e → expandPower sAdd (f + 1) (Ex.fn "Negate" [b]) e =
        (match expandPower sAdd f b e with
         | none => none
         | some none => some none
         | some (some r) =>
             some (some (if e % 2 = 0 then r else mkNeg r)))) ∧
      (2 ≤ e → b.headStr ≠ "Negate" → b.headStr ≠ "Add" →
        expandPower sAdd (f + 1) b e = some none)) ∧
    (∀ sAdd : List Ex → Ex,
      expand sAdd 3 (Ex.fn "Power" [Ex.fn "Add" [Ex.sym "a", Ex.sym "b"],
          Ex.num 2]) = some (some (Ex.fn "Add" expandSqBinomial)) ∧
      expand sAdd 3 (Ex.fn "Power" [Ex.fn "Add" [Ex.sym "a", Ex.sym "b"],
          Ex.num 3]) = some (some (Ex.fn "Add" expandCubeBinomial)) ∧
      expand sAdd 3 (Ex.fn "Power" [Ex.fn "Add" [Ex.sym "a", Ex.sym "b",
          Ex.sym "c"], Ex.num 2]) =
        some (some (Ex.fn "Add" expandSqTrinomial))) ∧
    Multiset.ofList expandSqBinomial = Multiset.ofList claimSqBinomial ∧
    Multiset.ofList expandCubeBinomial = Multiset.ofList claimCubeBinomial ∧
    Multiset.ofList expandSqTrinomial = Multiset.ofList claimSqTrinomial := by
  refine ⟨?_, fun sAdd => ⟨rfl, rfl, rfl⟩, by decide, by decide, by decide⟩
  intro sAdd f b e
  refine ⟨?_, ?_, ?_, ?_, ?_⟩
  · rw [expandPower]
    rw [if_neg (by omega), if_pos rfl]
  · rw [expandPower]
    rw [if_neg (by omega), if_neg (by omega), if_pos rfl]
  · intro he
    rw [expandPower, if_pos he]
  · intro he
    rw [expandPower]
    rw [if_neg (by omega), if_neg (by omega), if_neg (by omega)]
    simp only [Ex.headStr, Ex.op1]
    rw [if_pos trivial]
  · intro he h1 h2
    rw [expandPower]
    rw [if_neg (by omega), if_neg (by omega), if_neg (by omega), if_neg h1,
      if_pos h2]

theorem claim_C4_witness :
    expandPower (fun xs => mkAddN xs) 2 (Ex.sym "x") (-2) =
      (match expandPower (fun xs => mkAddN xs) 1 (Ex.sym "x") 2 with
       | none => none
       | some none => some none
       | some (some r) => some (some (mkInv r))) :=
  (claim_C4.1 (fun xs => mkAddN xs) 1 (Ex.sym "x") (-2)).2.2.1 (by decide)

/-! ## Imaginary factor (`getImaginaryFactor`) -/

/-- A boxed expression as observed by `getImaginaryFactor`: its operator
name (empty for atoms), its symbol if any, its operands, the engine-computed
numeric value as a real/imaginary pair when the engine knows one (`expr.re`
and `expr.im` are both defined exactly when this is `some`; `expr.is(0)`
holds exactly when it is `some (0, 0)`), and whether the node is a number
literal. -/
inductive CE where
  | mk : String → Option String → List CE → Option (Int × Int) → Bool → CE

def CE.operatorOf : CE → String
  | CE.mk op _ _ _ _ => op

def CE.symbolOf : CE → Option String
  | CE.mk _ sy _ _ _ => sy

def CE.opsCE : CE → List CE
  | CE.mk _ _ ops _ _ => ops

def CE.valOf : CE → Option (Int × Int)
  | CE.mk _ _ _ v _ => v

def CE.isNumLit : CE → Bool
  | CE.mk _ _ _ _ lit => lit

/-- `expr.re`, when the engine knows the numeric value. -/
def CE.reOf (e : CE) : Option Int := e.valOf.map Prod.fst

/-- `expr.im`, when the engine knows the numeric value. -/
def CE.imOf (e : CE) : Option Int := e.valOf.map Prod.snd

/-- `expr.is(0)`. -/
def CE.isZeroV (e : CE) : Bool := e.valOf = some (0, 0)

mutual

def ceDecEq : (a b : CE) → Decidable (a = b)
  | CE.mk o1 s1 ops1 v1 l1, CE.mk o2 s2 ops2 v2 l2 =>
      if h : o1 = o2 ∧ s1 = s2 ∧ v1 = v2 ∧ l1 = l2 then
        match ceDecEqList ops1 ops2 with
        | .isTrue hl => .isTrue (by
            obtain ⟨ho, hs, hv, hl2⟩ := h
            rw [ho, hs, hv, hl2, hl])
        | .isFalse hl => .isFalse (by simp [hl])
      else .isFalse (by
        intro hcontra
        injection hcontra with h1 h2 h3 h4 h5
        exact h ⟨h1, h2, h4, h5⟩)

def ceDecEqList : (as bs : List CE) → Decidable (as = bs)
  | [], [] => .isTrue rfl
  | [], _ :: _ => .isFalse (by simp)
  | _ :: _, [] => .isFalse (by simp)
  | a :: as, b :: bs =>
      match ceDecEq a b with
      | .isTrue h =>
        match ceDecEqList as bs with
        | .isTrue hl => .isTrue (by rw [h, hl])
        | .isFalse hl => .isFalse (by simp [h, hl])
      | .isFalse h => .isFalse (by simp [h])

end

instance : DecidableEq CE := ceDecEq

/-- Modelled from the spec: `ce.One`. -/
def oneCE : CE := CE.mk "" none [] (some (1, 0)) true

/-- Modelled from the spec: `ce.number(k)` for a real number `k`. -/
def numLitCE (n : Int) : CE := CE.mk "" none [] (some (n, 0)) true

/-- Modelled from the spec: `.neg()`, the engine negation. -/
def negCE (x : CE) : CE :=
  CE.mk "Negate" none [x] (x.valOf.map (fun v => (-v.1, -v.2))) false

/-- Modelled from the spec: `.mul(k)` for a machine number `k`. -/
def mulCE (x : CE) (k : Int) : CE :=
  CE.mk "Multiply" none [x, numLitCE k]
    (x.valOf.map (fun v => (v.1 * k, v.2 * k))) false

/-- Modelled from the spec: `.div(d)`, the engine quotient. -/
def divCE (x d : CE) : CE := CE.mk "Divide" none [x, d] none false

/-- The engine placeholder operand. -/
def nothingCE : CE := CE.mk "" (some "Nothing") [] none false

/-- `getImaginaryFactor(expr)` of the utilities excerpt. The branches are in
source order: the `ImaginaryUnit` symbol is factor one; an expression whose
computed real part is 0 yields its imaginary part; `Negate` recurses and
negates; a `Complex` node with zero first operand and numeric second operand
yields the real part of the second operand; a binary `Multiply` yields the
other operand when one is the imaginary unit, or the real operand scaled by
the imaginary part when one is a pure-imaginary number literal; a `Divide`
with non-zero denominator divides the numerator factor by the denominator;
everything else is undefined. Fuel-indexed on the recursion depth: the outer
`Option` is fuel exhaustion, the inner `Option` the undefined of the source.
(The `typeof expr === "number"` guard of the source takes a raw machine
number, not a boxed expression; model inputs are always boxed. A `Negate` or
`Divide` node missing its operand recurses on the engine placeholder, which
is undefined right away; those arms return undefined directly.) -/
def getImaginaryFactor : Nat → CE → Option (Option CE)
  | 0, _ => none
  | f + 1, CE.mk op sy ops v _lit =>
      if sy = some "ImaginaryUnit" then some (some oneCE)
      else if v.map Prod.fst = some 0 then
        some (some (numLitCE ((v.map Prod.snd).getD 0)))
      else if op = "Negate" then
        match ops with
        | x :: _ =>
            match getImaginaryFactor f x with
            | none => none
            | some r => some (r.map negCE)
        | [] => some none
      else if op = "Complex" then
        match ops with
        | x :: y :: _ =>
            if x.isZeroV ∧ y.reOf.isSome then
              some (some (numLitCE (y.reOf.getD 0)))
            else some none
        | _ => some none
      else if op = "Multiply" ∧ ops.length = 2 then
        match ops with
        | [o1, o2] =>
            if o1.symbolOf = some "ImaginaryUnit" then some (some o2)
            else if o2.symbolOf = some "ImaginaryUnit" then some (some o1)
            else if o2.isNumLit ∧ o2.reOf = some 0 ∧ ¬ o2.imOf = some 0 then
              some (some (mulCE o1 (o2.imOf.getD 0)))
            else if o1.isNumLit ∧ o1.reOf = some 0 ∧ ¬ o1.imOf = some 0 then
              some (some (mulCE o2 (o1.imOf.getD 0)))
            else some none
        | _ => some none
      else if op = "Divide" then
        match ops with
        | x :: d :: _ =>
            if d.isZeroV then some none
            else
              match getImaginaryFactor f x with
              | none => none
              | some r => some (r.map (fun q => divCE q d))
        | [x] =>
            match getImaginaryFactor f x with
            | none => none
            | some r => some (r.map (fun q => divCE q nothingCE))
        | [] => some none
      else some none

/-- The extractor exactly as claim C8 describes `getImaginaryFactor`: factor
one at the imaginary unit symbol, recursion through `Negate`, binary
`Multiply` (imaginary-unit operand or pure-imaginary literal operand) and
`Divide` with non-zero denominator, undefined for every other shape — with
no branch for a pure-imaginary top-level value and no branch for a `Complex`
node. -/
def claimImaginaryFactor : CE → Option CE
  | CE.mk op sy ops _v _lit =>
      if sy = some "ImaginaryUnit" then some oneCE
      else if op = "Negate" then
        match ops with
        | x :: _ => (claimImaginaryFactor x).map negCE
        | [] => none
      else if op = "Multiply" ∧ ops.length = 2 then
        match ops with
        | [o1, o2] =>
            if o1.symbolOf = some "ImaginaryUnit" then some o2
            else if o2.symbolOf = some "ImaginaryUnit" then some o1
            else if o2.isNumLit ∧ o2.reOf = some 0 ∧ ¬ o2.imOf = some 0 then
              some (mulCE o1 (o2.imOf.getD 0))
            else if o1.isNumLit ∧ o1.reOf = some 0 ∧ ¬ o1.imOf = some 0 then
              some (mulCE o2 (o1.imOf.getD 0))
            else none
        | _ => none
      else if op = "Divide" then
        match ops with
        | x :: d :: _ =>
            if d.isZeroV then none
            else (claimImaginaryFactor x).map (fun r => divCE r d)
        | [x] => (claimImaginaryFactor x).map (fun r => divCE r nothingCE)
        | [] => none
      else none

/-- The pure-imaginary number literal `3i`: the engine computes its value as
`(0, 3)`. -/
def imagLit3 : CE := CE.mk "" none [] (some (0, 3)) true

/-- Claim C8 counterexample: a pure-imaginary number literal is none of the
shapes the claim recognizes (not the imaginary unit symbol, not a `Negate`,
`Multiply` or `Divide` application), so the claim requires the result to be
undefined; the source has an earlier branch on a zero computed real part and
returns the imaginary part, here 3. -/
theorem claim_C8_counterexample :
    getImaginaryFactor 1 imagLit3 = some (some (numLitCE 3)) ∧
    claimImaginaryFactor imagLit3 = none ∧
    imagLit3.symbolOf ≠ some "ImaginaryUnit" ∧
    imagLit3.operatorOf ≠ "Negate" ∧
    imagLit3.operatorOf ≠ "Multiply" ∧
    imagLit3.operatorOf ≠ "Divide" := by
  refine ⟨by decide, by decide, by decide, by decide, by decide, by decide⟩

/-- Claim C8 (amended): `getImaginaryFactor` behaves as the claim states for
the imaginary unit symbol and the `Negate`, binary `Multiply` and `Divide`
shapes, with two additional branches that precede the recursion: an
expression whose computed real part is 0 yields its imaginary part, and a
`Complex` node with zero first operand and numeric second operand yields the
real part of its second operand; every remaining shape (including a
`Multiply` of arity other than two) is undefined. -/
theorem claim_C8 :
    ∀ (f : Nat) (op : String) (sy : Option String) (ops : List CE)
      (v : Option (Int × Int)) (lit : Bool),
      (sy = some "ImaginaryUnit" →
        getImaginaryFactor (f + 1) (CE.mk op sy ops v lit) =
          some (some oneCE)) ∧
      (∀ b : Int, sy ≠ some "ImaginaryUnit" → v = some (0, b) →
        getImaginaryFactor (f + 1) (CE.mk op sy ops v lit) =
          some (some (numLitCE b))) ∧
      (sy ≠ some "ImaginaryUnit" → v.map Prod.fst ≠ some 0 →
        ∀ x rest, ops = x :: rest → op = "Negate" →
        getImaginaryFactor (f + 1) (CE.mk op sy ops v lit) =
          (match getImaginaryFactor f x with
           | none => none
           | some r => some (r.map negCE))) ∧
      (sy ≠ some "ImaginaryUnit" → v.map Prod.fst ≠ some 0 →
        ∀ x y rest, ops = x :: y :: rest → op = "Complex" →
        getImaginaryFactor (f + 1) (CE.mk op sy ops v lit) =
          (if x.isZeroV ∧ y.reOf.isSome then
            some (some (numLitCE (y.reOf.getD 0)))
           else some none)) ∧
      (sy ≠ some "ImaginaryUnit" → v.map Prod.fst ≠ some 0 →
        ∀ o1 o2, ops = [o1, o2] → op = "Multiply" →
        getImaginaryFactor (f + 1) (CE.mk op sy ops v lit) =
          (if o1.symbolOf = some "ImaginaryUnit" then some (some o2)
           else if o2.symbolOf = some "ImaginaryUnit" then some (some o1)
           else if o2.isNumLit ∧ o2.reOf = some 0 ∧ ¬ o2.imOf = some 0 then
             some (some (mulCE o1 (o2.imOf.getD 0)))
           else if o1.isNumLit ∧ o1.reOf = some 0 ∧ ¬ o1.imOf = some 0 then
             some (some (mulCE o2 (o1.imOf.getD 0)))
           else some none)) ∧
      (sy ≠ some "ImaginaryUnit" → v.map Prod.fst ≠ some 0 →
        ∀ x d rest, ops = x :: d :: rest → op = "Divide" →
        getImaginaryFactor (f + 1) (CE.mk op sy ops v lit) =
          (if d.isZeroV then some none
           else
             match getImaginaryFactor f x with
             | none => none
             | some r => some (r.map (fun q => divCE q d)))) ∧
      (sy ≠ some "ImaginaryUnit" → v.map Prod.fst ≠ some 0 →
        op = "Multiply" → ops.length ≠ 2 →
        getImaginaryFactor (f + 1) (CE.mk op sy ops v lit) = some none) ∧
      (sy ≠ some "ImaginaryUnit" → v.map Prod.fst ≠ some 0 →
        op ≠ "Negate" → op ≠ "Complex" → op ≠ "Multiply" → op ≠ "Divide" →
        getImaginaryFactor (f + 1) (CE.mk op sy ops v lit) = some none) := by
  intro f op sy ops v lit
  refine ⟨?_, ?_, ?_, ?_, ?_, ?_, ?_, ?_⟩
  · intro h1
    subst h1
    rw [getImaginaryFactor.eq_def]
    simp
  · intro b h1 h2
    subst h2
    rw [getImaginaryFactor.eq_def]
    simp [h1]
  · intro h1 h2 x rest hops hop
    subst hops
    subst hop
    rw [getImaginaryFactor, if_neg h1, if_neg h2, if_pos rfl]
  · intro h1 h2 x y rest hops hop
    subst hops
    subst hop
    rw [getImaginaryFactor, if_neg h1, if_neg h2, if_neg (by decide),
      if_pos rfl]
  · intro h1 h2 o1 o2 hops hop
    subst hops
    subst hop
    rw [getImaginaryFactor, if_neg h1, if_neg h2, if_neg (by decide),
      if_neg (by decide), if_pos ⟨rfl, rfl⟩]
  · intro h1 h2 x d rest hops hop
    subst hops
    subst hop
    rw [getImaginaryFactor, if_neg h1, if_neg h2, if_neg (by decide),
      if_neg (by decide), if_neg (by simp), if_pos rfl]
  · intro h1 h2 hop hlen
    subst hop
    rw [getImaginaryFactor.eq_def]
    simp [h1, h2, hlen]
  · intro h1 h2 h3 h4 h5 h6
    rw [getImaginaryFactor.eq_def]
    simp [h1, h2, h3, h4, h5, h6]

theorem claim_C8_witness :
    getImaginaryFactor 1 (CE.mk "" (some "ImaginaryUnit") [] none false) =
      some (some oneCE) :=
  (claim_C8 0 "" (some "ImaginaryUnit") [] none false).1 rfl
